import Mathlib

/-!
Shallow embedding of the `binary_byte` Rust crate (src/lib.rs).

The crate defines `ByteBase2`, a byte represented as an array of 8
booleans (`intern : [bool; 8]`, index 0 the least significant bit),
together with:
  * `ones`        — popcount (`self.intern.iter().filter(|bit| **bit).count()`);
  * `iter`        — an iterator over the bits, LSB first;
  * `from_string` — parse an 8-character '0'/'1' pattern (MSB first),
                    returning `Err(InvalidPattern)` on bad input;
  * `from_dec`    — build from a `u8` by repeated division by 2;
  * `as_dec`      — convert back to a `u8` by summing powers of two;
  * `Index`/`IndexMut` — per-bit access, panicking when the index is ≥ 8;
  * `Debug`       — render as the 8-character pattern, MSB first.

In this embedding the Rust array `[bool; 8]` becomes a `List Bool`
(every constructor builds a list of length 8, and theorems about
arbitrary bytes carry the length-8 invariant as a hypothesis), Rust
strings become `List Char` (the Rust `len()` byte count is modelled by
summing `Char.utf8Size`), fallible parsing returns `Except`, and the
panicking indexed accessors return `Option` (`none` models the panic).
All operations are otherwise total Lean functions, which reflects that
the Rust code never panics on those paths.
-/

set_option maxRecDepth 4096

/-- A binary representation of a byte (Rust struct `ByteBase2`,
field `intern : [bool; 8]`). -/
structure ByteBase2 where
  intern : List Bool
deriving DecidableEq

/-- Error for an invalid string pattern (Rust unit struct `InvalidPattern`). -/
structure InvalidPattern
deriving DecidableEq

/-- The `Debug` rendering of `InvalidPattern`: the code writes this one
fixed string, with no positional data. -/
def InvalidPattern.fmt (_ : InvalidPattern) : String :=
  "The string pattern should have exactly 8, '0' or '1', characters."

/-- Rust `ByteBase2::ones`: `self.intern.iter().filter(|bit| **bit).count()`. -/
def ByteBase2.ones (b : ByteBase2) : Nat :=
  (b.intern.filter (fun bit => bit)).length

/-- Rust `ByteBase2::iter`: `Vec::from(self.intern.as_ref()).into_iter()` —
the sequence of the 8 bits in index order (LSB first). -/
def ByteBase2.iter (b : ByteBase2) : List Bool :=
  b.intern

/-- The Rust `pattern.len()`: the UTF-8 byte length of the string. -/
def utf8Len (s : List Char) : Nat :=
  (s.map Char.utf8Size).sum

/-- The loop of `ByteBase2::from_string`:
`for (index, bit) in pattern.chars().rev().enumerate()` over an already
reversed character list, writing `intern[index] = true` on '1',
returning `Err(InvalidPattern)` on a character other than '1'/'0'.
(`List.set` out of range is unreachable: with a byte length of 8 the
string has at most 8 characters, so `index ≤ 7 < 8 = intern.length`.) -/
def fromStringLoop : List Char → Nat → List Bool → Option (List Bool)
  | [], _, intern => some intern
  | c :: rest, index, intern =>
    if c = '1' then fromStringLoop rest (index + 1) (intern.set index true)
    else if c ≠ '0' then none
    else fromStringLoop rest (index + 1) intern

/-- Rust `ByteBase2::from_string`: checks `pattern.len() == 8` (byte
length), then runs the character loop over the reversed pattern starting
from `[false; 8]`. -/
def ByteBase2.from_string (pattern : List Char) : Except InvalidPattern ByteBase2 :=
  if utf8Len pattern = 8 then
    match fromStringLoop pattern.reverse 0 (List.replicate 8 false) with
    | some intern => Except.ok ⟨intern⟩
    | none => Except.error InvalidPattern.mk
  else Except.error InvalidPattern.mk

/-- The loop of `ByteBase2::from_dec`: `for index in 0..8`
sets `intern[index] = input % 2 == 1` then `input /= 2`; the list is
built with index 0 (the first iteration) at the head. -/
def fromDecLoop : Nat → Nat → List Bool
  | _, 0 => []
  | input, n + 1 => (input % 2 == 1) :: fromDecLoop (input / 2) n

/-- Rust `ByteBase2::from_dec` on a `u8` value (theorems restrict the
argument to the `u8` range `input < 256`). -/
def ByteBase2.from_dec (input : Nat) : ByteBase2 :=
  ⟨fromDecLoop input 8⟩

/-- Rust `ByteBase2::as_dec`: `for index in 0..8 { if self.intern[index]
{ output += 2_u8.pow(index) } }`.  The accumulator is modelled in `Nat`;
`as_dec_sum_of_powers` shows the result stays below 256 (the partial
sums are monotone, so they stay below 256 as well), hence the Rust `u8`
addition never overflows. -/
def ByteBase2.as_dec (b : ByteBase2) : Nat :=
  (List.range 8).foldl
    (fun output index => if b.intern.getD index false then output + 2 ^ index else output) 0

/-- Rust `Index<usize> for ByteBase2`: `&self.intern[idx]`.  Rust panics
when `idx` is out of bounds; `none` models that panic. -/
def ByteBase2.index (b : ByteBase2) (idx : Nat) : Option Bool :=
  b.intern.get? idx

/-- Rust `IndexMut<usize> for ByteBase2`: `&mut self.intern[idx]`
followed by a write of `v`.  Rust panics when `idx` is out of bounds;
`none` models that panic. -/
def ByteBase2.index_set (b : ByteBase2) (idx : Nat) (v : Bool) : Option ByteBase2 :=
  if idx < b.intern.length then some ⟨b.intern.set idx v⟩ else none

/-- The `Debug` rendering of `ByteBase2`: push '1'/'0' for each bit of
`self.intern.iter().rev()` (MSB first). -/
def ByteBase2.fmt (b : ByteBase2) : List Char :=
  b.intern.reverse.map (fun bit => if bit then '1' else '0')

/-- Destructuring for the fixed-size invariant: a length-8 list is a cons
chain of eight elements. -/
lemma length_eq_eight {α : Type} (l : List α) (h : l.length = 8) :
    ∃ y0 y1 y2 y3 y4 y5 y6 y7, l = y0 :: y1 :: y2 :: y3 :: y4 :: y5 :: y6 :: y7 :: [] := by
  rcases l with _ | ⟨y0, _ | ⟨y1, _ | ⟨y2, _ | ⟨y3, _ | ⟨y4, _ | ⟨y5, _ | ⟨y6, _ | ⟨y7, _ | ⟨y8, l⟩⟩⟩⟩⟩⟩⟩⟩⟩ <;>
    simp at h
  exact ⟨y0, y1, y2, y3, y4, y5, y6, y7, rfl⟩

/-- The `from_string` character loop succeeds exactly when every
character of the (reversed) pattern is '0' or '1'. -/
lemma fromStringLoop_isSome_iff : ∀ (cs : List Char) (index : Nat) (intern : List Bool),
    (fromStringLoop cs index intern).isSome = true ↔ ∀ c ∈ cs, c = '0' ∨ c = '1' := by
  intro cs
  induction cs with
  | nil => intro index intern; simp [fromStringLoop]
  | cons c rest ih =>
    intro index intern
    by_cases hc1 : c = '1'
    · subst hc1
      simp [fromStringLoop, ih]
    · by_cases hc0 : c = '0'
      · subst hc0
        simp [fromStringLoop, ih]
      · simp [fromStringLoop, hc1, hc0]

/-- The characters '0' and '1' each occupy one UTF-8 byte. -/
lemma good_char_utf8Size {c : Char} (h : c = '0' ∨ c = '1') : c.utf8Size = 1 := by
  rcases h with rfl | rfl <;> decide

/-- On strings made only of '0'/'1' the Rust byte length `len()` agrees
with the character count. -/
lemma utf8Len_eq_length {s : List Char} (h : ∀ c ∈ s, c = '0' ∨ c = '1') :
    utf8Len s = s.length := by
  induction s with
  | nil => rfl
  | cons c rest ih =>
    have hc : c.utf8Size = 1 := good_char_utf8Size (h c (by simp))
    have hr : utf8Len rest = rest.length := ih (fun x hx => h x (by simp [hx]))
    simp [utf8Len, List.sum_cons] at hr ⊢
    omega

/-- C1: for every value v in 0..=255, converting v to a `ByteBase2` with
`from_dec` and back with `as_dec` returns v. -/
theorem from_dec_as_dec_roundtrip : ∀ v : Nat, v < 256 →
    ByteBase2.as_dec (ByteBase2.from_dec v) = v := by
  decide

/-- Witness for C1 at v = 200. -/
theorem from_dec_as_dec_roundtrip_witness :
    ByteBase2.as_dec (ByteBase2.from_dec 200) = 200 :=
  from_dec_as_dec_roundtrip 200 (by decide)

/-- C2: for every string of exactly 8 characters, each '0' or '1',
`from_string` succeeds and the `Debug` rendering of the resulting byte
is exactly the input string. -/
theorem from_string_fmt_roundtrip : ∀ s : List Char, s.length = 8 →
    (∀ c ∈ s, c = '0' ∨ c = '1') →
    (ByteBase2.from_string s).toOption.map ByteBase2.fmt = some s := by
  intro s hlen hgood
  obtain ⟨a0, a1, a2, a3, a4, a5, a6, a7, rfl⟩ := length_eq_eight s hlen
  have h0 := hgood a0 (by simp)
  have h1 := hgood a1 (by simp)
  have h2 := hgood a2 (by simp)
  have h3 := hgood a3 (by simp)
  have h4 := hgood a4 (by simp)
  have h5 := hgood a5 (by simp)
  have h6 := hgood a6 (by simp)
  have h7 := hgood a7 (by simp)
  rcases h0 with rfl | rfl <;> rcases h1 with rfl | rfl <;> rcases h2 with rfl | rfl <;>
    rcases h3 with rfl | rfl <;> rcases h4 with rfl | rfl <;> rcases h5 with rfl | rfl <;>
    rcases h6 with rfl | rfl <;> rcases h7 with rfl | rfl <;> decide

/-- Witness for C2 at the pattern "01111001". -/
theorem from_string_fmt_roundtrip_witness :
    (ByteBase2.from_string ['0', '1', '1', '1', '1', '0', '0', '1']).toOption.map ByteBase2.fmt
      = some ['0', '1', '1', '1', '1', '0', '0', '1'] :=
  from_string_fmt_roundtrip ['0', '1', '1', '1', '1', '0', '0', '1'] (by decide) (by decide)

/-- C3: `from_string` returns the `InvalidPattern` error if and only if
the input's length is not exactly 8 or some character is outside
{'0','1'} (and, being a total function, it never crashes on malformed
input); on success bit index i holds the character at position 7 - i,
so the rightmost character maps to bit 0 and the leftmost to bit 7. -/
theorem from_string_invalid_pattern_iff : ∀ s : List Char,
    (ByteBase2.from_string s = Except.error InvalidPattern.mk ↔
      ¬(s.length = 8 ∧ ∀ c ∈ s, c = '0' ∨ c = '1')) ∧
    (s.length = 8 → (∀ c ∈ s, c = '0' ∨ c = '1') →
      (ByteBase2.from_string s).toOption.map (fun b => (List.range 8).map b.index)
        = some ((List.range 8).map (fun i => some (s.getD (7 - i) '0' == '1')))) := by
  intro s
  constructor
  · by_cases hlen8 : utf8Len s = 8
    · by_cases hgood : ∀ c ∈ s, c = '0' ∨ c = '1'
      · have hsome : (fromStringLoop s.reverse 0 (List.replicate 8 false)).isSome = true :=
          (fromStringLoop_isSome_iff _ _ _).mpr (fun c hc => hgood c (List.mem_reverse.mp hc))
        obtain ⟨r, hr⟩ := Option.isSome_iff_exists.mp hsome
        have hok : ByteBase2.from_string s = Except.ok ⟨r⟩ := by
          simp only [ByteBase2.from_string, if_pos hlen8, hr]
        have hlg : s.length = 8 ∧ ∀ c ∈ s, c = '0' ∨ c = '1' :=
          ⟨by rw [← utf8Len_eq_length hgood]; exact hlen8, hgood⟩
        constructor
        · intro herr
          rw [hok] at herr
          exact absurd herr (by simp)
        · intro hns
          exact absurd hlg hns
      · have hnone : fromStringLoop s.reverse 0 (List.replicate 8 false) = none := by
          rcases hopt : fromStringLoop s.reverse 0 (List.replicate 8 false) with _ | r
          · rfl
          · refine absurd (fun c hc => ?_) hgood
            exact ((fromStringLoop_isSome_iff _ _ _).mp (by rw [hopt]; rfl)) c
              (List.mem_reverse.mpr hc)
        have herr : ByteBase2.from_string s = Except.error InvalidPattern.mk := by
          simp only [ByteBase2.from_string, if_pos hlen8, hnone]
        constructor
        · intro _ hlg
          exact hgood hlg.2
        · intro _
          exact herr
    · have herr : ByteBase2.from_string s = Except.error InvalidPattern.mk := by
        simp only [ByteBase2.from_string, if_neg hlen8]
      constructor
      · intro _ hlg
        exact hlen8 (by rw [utf8Len_eq_length hlg.2]; exact hlg.1)
      · intro _
        exact herr
  · intro hlen hgood
    obtain ⟨a0, a1, a2, a3, a4, a5, a6, a7, rfl⟩ := length_eq_eight s hlen
    have h0 := hgood a0 (by simp)
    have h1 := hgood a1 (by simp)
    have h2 := hgood a2 (by simp)
    have h3 := hgood a3 (by simp)
    have h4 := hgood a4 (by simp)
    have h5 := hgood a5 (by simp)
    have h6 := hgood a6 (by simp)
    have h7 := hgood a7 (by simp)
    rcases h0 with rfl | rfl <;> rcases h1 with rfl | rfl <;> rcases h2 with rfl | rfl <;>
      rcases h3 with rfl | rfl <;> rcases h4 with rfl | rfl <;> rcases h5 with rfl | rfl <;>
      rcases h6 with rfl | rfl <;> rcases h7 with rfl | rfl <;> decide

/-- Witness for C3: "foo" is rejected, and on "00000011" bit i is the
character at position 7 - i. -/
theorem from_string_invalid_pattern_iff_witness :
    ByteBase2.from_string ['f', 'o', 'o'] = Except.error InvalidPattern.mk ∧
    (ByteBase2.from_string ['0', '0', '0', '0', '0', '0', '1', '1']).toOption.map
        (fun b => (List.range 8).map b.index)
      = some ((List.range 8).map
        (fun i => some (['0', '0', '0', '0', '0', '0', '1', '1'].getD (7 - i) '0' == '1'))) :=
  ⟨(from_string_invalid_pattern_iff ['f', 'o', 'o']).1.mpr (by decide),
   (from_string_invalid_pattern_iff ['0', '0', '0', '0', '0', '0', '1', '1']).2
     (by decide) (by decide)⟩

/-- C4: `from_dec` is total on the `u8` range (it is a total function of
the embedding) and bit i of `from_dec v` is bit i of the binary
expansion of v, i.e. (v >> i) & 1. -/
theorem from_dec_bit_expansion : ∀ v : Nat, v < 256 → ∀ i : Nat, i < 8 →
    (ByteBase2.from_dec v).index i = some (((v >>> i) &&& 1) == 1) := by
  decide

/-- Witness for C4 at v = 5, i = 2. -/
theorem from_dec_bit_expansion_witness :
    (ByteBase2.from_dec 5).index 2 = some (((5 >>> 2) &&& 1) == 1) :=
  from_dec_bit_expansion 5 (by decide) 2 (by decide)

/-- C5: for every byte, `as_dec` returns the sum over i in 0..=7 of 2^i
for each set bit i, and the result is at most 255 (so the Rust `u8`
accumulator never overflows and the result is always in [0,255]). -/
theorem as_dec_sum_of_powers : ∀ b : ByteBase2, b.intern.length = 8 →
    b.as_dec = ((List.range 8).map (fun i => if b.intern.getD i false then 2 ^ i else 0)).sum ∧
    b.as_dec ≤ 255 := by
  intro b hlen
  obtain ⟨l⟩ := b
  obtain ⟨a0, a1, a2, a3, a4, a5, a6, a7, rfl⟩ := length_eq_eight l hlen
  revert a0 a1 a2 a3 a4 a5 a6 a7
  decide

/-- Witness for C5 at the byte `from_dec 7`. -/
theorem as_dec_sum_of_powers_witness :
    (ByteBase2.from_dec 7).as_dec
        = ((List.range 8).map
          (fun i => if (ByteBase2.from_dec 7).intern.getD i false then 2 ^ i else 0)).sum ∧
    (ByteBase2.from_dec 7).as_dec ≤ 255 :=
  as_dec_sum_of_powers (ByteBase2.from_dec 7) (by decide)

/-- C6: for every byte, indexed read and indexed write at any index ≥ 8
hit the out-of-bounds panic (modelled by `none`) instead of returning,
clamping or wrapping, while at any index in 0..=7 both succeed. -/
theorem index_out_of_bounds_panics : ∀ b : ByteBase2, b.intern.length = 8 →
    ∀ i : Nat, ∀ v : Bool,
    (8 ≤ i → b.index i = none ∧ b.index_set i v = none) ∧
    (i < 8 → (b.index i).isSome = true ∧ (b.index_set i v).isSome = true) := by
  intro b hlen i v
  constructor
  · intro hi
    constructor
    · simp only [ByteBase2.index]
      exact List.get?_eq_none.mpr (by omega)
    · simp only [ByteBase2.index_set]
      rw [if_neg (by omega)]
  · intro hi
    have hl : i < b.intern.length := by omega
    constructor
    · simp only [ByteBase2.index]
      rw [List.get?_eq_get hl]
      rfl
    · simp only [ByteBase2.index_set]
      rw [if_pos hl]
      rfl

/-- Witness for C6: index 9 panics on `from_dec 200`, index 3 succeeds. -/
theorem index_out_of_bounds_panics_witness :
    ((ByteBase2.from_dec 200).index 9 = none ∧
      (ByteBase2.from_dec 200).index_set 9 true = none) ∧
    ((ByteBase2.from_dec 200).index 3).isSome = true ∧
      ((ByteBase2.from_dec 200).index_set 3 true).isSome = true :=
  ⟨(index_out_of_bounds_panics (ByteBase2.from_dec 200) (by decide) 9 true).1 (by decide),
   (index_out_of_bounds_panics (ByteBase2.from_dec 200) (by decide) 3 true).2 (by decide)⟩

/-- C7: `iter` yields exactly the 8 bits of the byte, bit 0 first and
bit 7 last, without mutating the byte (it is a pure function of the
unchanged `intern` field); on the byte built from "00000011" it yields
true, true, then six times false. -/
theorem iter_lsb_first : (∀ b : ByteBase2, b.intern.length = 8 →
    b.iter = b.intern ∧ b.iter.length = 8 ∧
      ∀ i : Nat, i < 8 → b.iter.get? i = b.index i) ∧
    (ByteBase2.from_string ['0', '0', '0', '0', '0', '0', '1', '1']).toOption.map ByteBase2.iter
      = some [true, true, false, false, false, false, false, false] := by
  constructor
  · intro b hlen
    exact ⟨rfl, hlen, fun i _ => rfl⟩
  · decide

/-- Witness for C7 at the byte `from_dec 3`. -/
theorem iter_lsb_first_witness :
    (ByteBase2.from_dec 3).iter = (ByteBase2.from_dec 3).intern :=
  (iter_lsb_first.1 (ByteBase2.from_dec 3) (by decide)).1

/-- C8: `ones` counts the bit positions in 0..=7 whose bit is set, the
count is at most 8, and `ones` of `from_dec 15`, `from_dec 0` and
`from_dec 255` are 4, 0 and 8 respectively. -/
theorem ones_popcount : (∀ b : ByteBase2, b.intern.length = 8 →
    b.ones = ((List.range 8).filter (fun i => b.intern.getD i false)).length ∧ b.ones ≤ 8) ∧
    (ByteBase2.from_dec 15).ones = 4 ∧ (ByteBase2.from_dec 0).ones = 0 ∧
    (ByteBase2.from_dec 255).ones = 8 := by
  refine ⟨?_, by decide, by decide, by decide⟩
  intro b hlen
  obtain ⟨l⟩ := b
  obtain ⟨a0, a1, a2, a3, a4, a5, a6, a7, rfl⟩ := length_eq_eight l hlen
  revert a0 a1 a2 a3 a4 a5 a6 a7
  decide

/-- Witness for C8 at the byte `from_dec 15`. -/
theorem ones_popcount_witness :
    (ByteBase2.from_dec 15).ones
        = ((List.range 8).filter (fun i => (ByteBase2.from_dec 15).intern.getD i false)).length ∧
    (ByteBase2.from_dec 15).ones ≤ 8 :=
  ones_popcount.1 (ByteBase2.from_dec 15) (by decide)

/-- C9 counterexample: the rendered `InvalidPattern` message is not the
text stated in the claim ("the string pattern should have exactly 8
'0'/'1' characters"). -/
theorem invalid_pattern_message_ne_claim :
    InvalidPattern.fmt InvalidPattern.mk ≠
      "the string pattern should have exactly 8 '0'/'1' characters" := by
  decide

/-- C9 amended: the `InvalidPattern` error renders the fixed message
"The string pattern should have exactly 8, '0' or '1', characters." and
carries no positional detail (the error type has a single value). -/
theorem invalid_pattern_message_fixed : (∀ e : InvalidPattern,
    InvalidPattern.fmt e
      = "The string pattern should have exactly 8, '0' or '1', characters.") ∧
    (∀ e1 e2 : InvalidPattern, e1 = e2) :=
  ⟨fun _ => rfl, fun ⟨⟩ ⟨⟩ => rfl⟩

/-- C10: indexed write is frame-local: writing v at a valid index i
succeeds, reading i afterwards returns v, and reading any other valid
index j returns the bit the byte had at j before the write. -/
theorem index_set_frame : ∀ b : ByteBase2, b.intern.length = 8 → ∀ i : Nat, i < 8 →
    ∀ v : Bool,
    ((b.index_set i v).map (fun b2 => b2.index i) = some (some v)) ∧
    (∀ j : Nat, j < 8 → j ≠ i → (b.index_set i v).map (fun b2 => b2.index j)
      = some (b.index j)) := by
  intro b hlen i hi v
  have hl : i < b.intern.length := by omega
  constructor
  · simp only [ByteBase2.index_set, if_pos hl, Option.map_some', ByteBase2.index]
    rw [List.get?_eq_getElem?, List.getElem?_set_self hl]
  · intro j hj hne
    simp only [ByteBase2.index_set, if_pos hl, Option.map_some', ByteBase2.index]
    rw [List.get?_eq_getElem?, List.getElem?_set_ne (Ne.symm hne), ← List.get?_eq_getElem?]

/-- Witness for C10: writing true at index 0 of `from_dec 6` is read
back at index 0, and index 2 is unchanged. -/
theorem index_set_frame_witness :
    (((ByteBase2.from_dec 6).index_set 0 true).map (fun b2 => b2.index 0)
      = some (some true)) ∧
    (((ByteBase2.from_dec 6).index_set 0 true).map (fun b2 => b2.index 2)
      = some ((ByteBase2.from_dec 6).index 2)) :=
  ⟨(index_set_frame (ByteBase2.from_dec 6) (by decide) 0 (by decide) true).1,
   (index_set_frame (ByteBase2.from_dec 6) (by decide) 0 (by decide) true).2 2
     (by decide) (by decide)⟩
